import Mathlib

/-!
Verification of the eBay seller-analyzer application (src/app.py).

The file embeds the pure content of the Python script shallowly:
Streamlit widget state is passed explicitly, pandas dataframes become
lists of rows of cells, exceptions become explicit result constructors,
and machine floats become rationals (`ℚ`) with `NaN` rendered as
`Option`/a dedicated `na` constructor.
-/

namespace EbayAnalyzer

/-! ## Authentication (`check_password`, app.py lines 18-43) -/

/-- The hardcoded user table of `check_password` (app.py lines 20-24),
in dictionary insertion order. -/
def users : List (String × String) :=
  [("admin", "ebay2024"), ("user1", "password1"), ("ebay2024", "password1")]

/-- The Streamlit session state relevant to authentication: the single
boolean `st.session_state.authenticated` flag (initialized to `false` on
first access, app.py lines 26-27). -/
structure SessionState where
  authenticated : Bool
deriving DecidableEq, Repr

/-- One render of the sidebar login form: the text-input contents and
whether the ログイン button was pressed on this run. -/
structure LoginForm where
  username : String
  password : String
  pressed : Bool
deriving DecidableEq, Repr

/-- Shallow embedding of `check_password` (app.py lines 18-43).
Returns the boolean result together with the session state after the
call.  The early return on line 29-30 fires when the flag is already
set; otherwise the credentials are compared in plaintext (line 37:
`username in users and users[username] == password`) only when the
button was pressed, and a successful comparison sets the flag. -/
def check_password (s : SessionState) (f : LoginForm) : Bool × SessionState :=
  if s.authenticated then
    (true, s)
  else if f.pressed then
    match users.lookup f.username with
    | some pw => if pw = f.password then (true, ⟨true⟩) else (false, s)
    | none => (false, s)
  else
    (false, s)

/-! ## Top-level error handling of `load_and_analyze_data`
(app.py lines 57-195).

The routine wraps its whole body in `try/except Exception`.  The
handler (lines 190-195) prints an error message and debug output that
evaluates the locals `file_content` (bound at line 61) and `encoding`
(bound at line 65) before returning `(None, None)`.  We model the body
as three failure points — the initial `uploaded_file.read()`, the
`detect_encoding` call, and everything after it — and track which
locals are bound when the handler runs. -/

/-- Which locals of `load_and_analyze_data` are bound when the
`except` handler starts executing. -/
structure HandlerEnv where
  fileContentBound : Bool
  encodingBound : Bool
deriving DecidableEq, Repr

/-- Result of a call to `load_and_analyze_data`: either a normal return
(recording whether the dataframe and the seller series are non-`None`)
or an exception propagating out of the routine. -/
inductive LoadResult where
  | returned (dfSome sellersSome : Bool)
  | raised (exn : String)
deriving DecidableEq, Repr

/-- Shallow embedding of the `except Exception` handler (app.py lines
190-195).  `st.error` (line 191) and the literal `st.write` (line 192)
always succeed; line 193 evaluates `len(file_content)` and line 194
evaluates `encoding`, so if either local is unbound the handler itself
raises `UnboundLocalError`, which propagates (the handler is not inside
another `try`). -/
def exceptHandler (env : HandlerEnv) : LoadResult :=
  if !env.fileContentBound then .raised "UnboundLocalError"
  else if !env.encodingBound then .raised "UnboundLocalError"
  else .returned false false

/-- Failure profile of one call to `load_and_analyze_data`: which of
the three stages of the body raises first (read at line 61, encoding
detection at line 65, or any later statement of the body). -/
structure LoadBehavior where
  readRaises : Bool
  detectRaises : Bool
  bodyRaises : Bool
deriving DecidableEq, Repr

/-- Shallow embedding of the control flow of `load_and_analyze_data`
(app.py lines 57-195): the body runs until its first failing stage, the
`except` clause catches that failure, and the handler runs with exactly
the locals the body had bound by then.  A fully successful body returns
the dataframe and the seller series. -/
def load_and_analyze_data (b : LoadBehavior) : LoadResult :=
  if b.readRaises then exceptHandler ⟨false, false⟩
  else if b.detectRaises then exceptHandler ⟨true, false⟩
  else if b.bodyRaises then exceptHandler ⟨true, true⟩
  else .returned true true

/-! ## Encoding fallback (app.py lines 64-105).

`load_and_analyze_data` detects an encoding with `chardet`, then tries
a fixed candidate list, skipping `None`, reading the CSV with each
candidate until one succeeds; if none does, it raises an exception
carrying the accumulated per-encoding error messages. -/

/-- The candidate list `encodings_to_try` (app.py line 69): four fixed
names followed by the auto-detected encoding, which may be `None`. -/
def encodings_to_try (detected : Option String) : List (Option String) :=
  [some "utf-8-sig", some "cp932", some "shift-jis", some "utf-8", detected]

/-- The error message recorded when reading with one encoding fails
(app.py line 101). -/
def encFailMsg (enc msg : String) : String :=
  "エンコーディング " ++ enc ++ " での読み込み失敗: " ++ msg

/-- Shallow embedding of the `for enc in encodings_to_try` loop
(app.py lines 73-105).  `parse enc` abstracts the two `pd.read_csv`
calls with encoding `enc` (header check and full read): either a
dataframe or the raised error's message.  `None` entries are skipped
(line 74-75), a success breaks out of the loop (line 99), a failure
appends its message and continues (lines 100-102), and an exhausted
loop raises the joined messages (lines 104-105). -/
def readCsvLoop {α : Type} (parse : String → Except String α) :
    List (Option String) → List String → Except (List String) α
  | [], errs => .error errs
  | none :: rest, errs => readCsvLoop parse rest errs
  | some enc :: rest, errs =>
    match parse enc with
    | .ok df => .ok df
    | .error msg => readCsvLoop parse rest (errs ++ [encFailMsg enc msg])

/-- Whether an `Except` value is a success. -/
def exceptOk {α : Type} : Except String α → Bool
  | .ok _ => true
  | .error _ => false

/-- The message of a failed `Except` value (default `""` on success). -/
def exceptErr {α : Type} : Except String α → String
  | .ok _ => ""
  | .error m => m

/-! ## Price-column cleaning (app.py lines 154-163).

The price column is coerced to strings (`fillna('')` then
`astype(str)`), every character outside `[\d.]` is removed
(`str.replace(r'[^\d.]', '', regex=True)`), the empty string becomes
`pd.NA`, and `pd.to_numeric(..., errors='coerce')` turns anything
unparseable into `NaN`. -/

/-- The regex replacement of app.py line 159: keep only digits and
`'.'`. -/
def cleanPrice (s : String) : List Char :=
  s.toList.filter (fun c => c.isDigit || c == '.')

/-- Value of a digit string, most significant first. -/
def digitsVal (l : List Char) : ℕ :=
  l.foldl (fun a c => a * 10 + (c.toNat - Char.toNat '0')) 0

/-- Split a character list at its first `'.'`: the part before it, and
`some` the part after it (or `none` when there is no dot). -/
def splitAtDot : List Char → List Char × Option (List Char)
  | [] => ([], none)
  | c :: rest =>
    if c = '.' then ([], some rest)
    else
      let p := splitAtDot rest
      (c :: p.1, p.2)

/-- Shallow embedding of `pd.to_numeric(..., errors='coerce')` on an
already cleaned string: a decimal numeral with at most one dot and at
least one digit parses to its rational value, anything else coerces to
`NaN` (`none`). -/
def parseCleaned (l : List Char) : Option ℚ :=
  match splitAtDot l with
  | (ip, none) =>
    if ip ≠ [] ∧ ip.all Char.isDigit then some (digitsVal ip) else none
  | (ip, some fp) =>
    if (ip ≠ [] ∨ fp ≠ []) ∧ ip.all Char.isDigit ∧ fp.all Char.isDigit then
      some ((digitsVal ip : ℚ) + (digitsVal fp : ℚ) / (10 : ℚ) ^ fp.length)
    else none

/-- The full per-value price pipeline of app.py lines 157-163: clean
the string; an empty cleaned string becomes `pd.NA` (line 161), and
`to_numeric` coerces failures to `NaN` — both are `none`. -/
def parse_price (s : String) : Option ℚ :=
  if cleanPrice s = [] then none else parseCleaned (cleanPrice s)

/-- Specification-side characterization of the strings `to_numeric`
accepts among cleaned (digits-and-dots) strings: nonempty, at most one
dot, at least one digit. -/
def validNumeral (l : List Char) : Bool :=
  !l.isEmpty && l.count '.' ≤ 1 && l.any Char.isDigit

/-! ## Column-name normalization (app.py lines 111-139).

Each header is lowercased and matched against keyword groups by an
`if`/`elif` chain; the first group one of whose keywords occurs in the
lowercased header gives the canonical name the column is renamed to. -/

/-- Whether `needle` is a leading segment of `hay`. -/
def listBegins : List Char → List Char → Bool
  | _, [] => true
  | [], _ :: _ => false
  | a :: as, b :: bs => a == b && listBegins as bs

/-- Whether `needle` occurs contiguously inside `hay`; models Python's
`keyword in col_str` substring test. -/
def listHasSub : List Char → List Char → Bool
  | [], needle => listBegins [] needle
  | a :: t, needle => listBegins (a :: t) needle || listHasSub t needle

/-- Python's `str(col).lower()`, character by character (ASCII
letters; the Japanese keywords are unaffected by lowercasing). -/
def lowerChars (s : String) : List Char :=
  s.toList.map Char.toLower

/-- `any(keyword in col_str for keyword in kws)` (app.py lines
116-134). -/
def hasKeyword (colStr : List Char) (kws : List String) : Bool :=
  kws.any (fun k => listHasSub colStr k.toList)

/-- Shallow embedding of the normalization `if`/`elif` chain (app.py
lines 113-135): the renamed (canonical) header, or `none` when the
column keeps its name. -/
def normalizeColumn (col : String) : Option String :=
  let colStr := lowerChars col
  if hasKeyword colStr ["商品", "product", "item", "title", "name"] then some "商品名"
  else if hasKeyword colStr ["価格", "price", "cost", "円"] then some "価格"
  else if hasKeyword colStr ["出品者", "seller", "store", "shop"] then some "出品者"
  else if hasKeyword colStr ["状態", "condition", "status", "state"] then some "状態"
  else if hasKeyword colStr ["出品日", "date", "time", "日時", "登録"] then some "出品日時"
  else if hasKeyword colStr ["url", "link", "href"] then some "URL"
  else if hasKeyword colStr ["カテゴリ", "category", "type", "分類"] then some "カテゴリー"
  else none

/-- The keyword groups of the table, in source order, paired with
their canonical column names. -/
def normalizationGroups : List (List String × String) :=
  [ (["商品", "product", "item", "title", "name"], "商品名"),
    (["価格", "price", "cost", "円"], "価格"),
    (["出品者", "seller", "store", "shop"], "出品者"),
    (["状態", "condition", "status", "state"], "状態"),
    (["出品日", "date", "time", "日時", "登録"], "出品日時"),
    (["url", "link", "href"], "URL"),
    (["カテゴリ", "category", "type", "分類"], "カテゴリー") ]

/-- The spec's reading of the table as amended: the first group (in
table order) with a keyword occurring in the lowercased header wins. -/
def firstMatchNormalize (col : String) : Option String :=
  (normalizationGroups.find? (fun g => hasKeyword (lowerChars col) g.1)).map (fun g => g.2)

/-- The claim's literal reading of the table at one header: every
group with a matching keyword has the column renamed to its canonical
name. -/
def keywordTableClaimAt (col : String) : Prop :=
  ∀ g ∈ normalizationGroups, hasKeyword (lowerChars col) g.1 = true → normalizeColumn col = some g.2

/-! ## Dataframes and `analyze_seller` (app.py lines 197-229).

A dataframe is a header row plus cell rows; a cell is missing (`NaN`),
numeric (the parsed price column), or a string.  Column access by a
name not among the headers models pandas' `KeyError`. -/

/-- One dataframe cell. -/
inductive Cell where
  | na : Cell
  | num : ℚ → Cell
  | str : String → Cell
deriving DecidableEq, Repr

/-- A dataframe: column names and rows of cells (row `r`'s cell for
column `i` is `r[i]`, missing entries reading as `NaN`). -/
structure DataFrame where
  cols : List String
  rows : List (List Cell)
deriving DecidableEq, Repr

/-- Index of a column name in a header list (first occurrence). -/
def findColIdx (name : String) : List String → Option ℕ
  | [] => none
  | c :: rest => if c = name then some 0 else (findColIdx name rest).map (· + 1)

/-- `df[name]`: the column's cells, or `none` (pandas `KeyError`) when
the name is not among the headers. -/
def DataFrame.col? (df : DataFrame) (name : String) : Option (List Cell) :=
  (findColIdx name df.cols).map (fun i => df.rows.map (fun r => r.getD i .na))

/-- `df[df['出品者'] == seller_name]` (app.py line 199): keep the rows
whose 出品者 cell is the string `seller` (`NaN` compares unequal);
`none` when the 出品者 column is missing. -/
def filterSeller (df : DataFrame) (seller : String) : Option DataFrame :=
  (findColIdx "出品者" df.cols).map (fun i =>
    ⟨df.cols, df.rows.filter (fun r => r.getD i .na == .str seller)⟩)

/-- Numeric content of a cell. -/
def cellNum? : Cell → Option ℚ
  | .num q => some q
  | _ => none

/-- The non-`NaN` numeric values of a column, in row order: pandas
aggregations skip `NaN`. -/
def colNums (cells : List Cell) : List ℚ :=
  cells.filterMap cellNum?

/-- `Series.mean()`: `NaN` (here `none`) on an all-missing column. -/
def seriesMean (cells : List Cell) : Option ℚ :=
  let ns := colNums cells
  if ns.isEmpty then none else some (ns.sum / ns.length)

/-- `Series.min()`. -/
def seriesMin (cells : List Cell) : Option ℚ :=
  (colNums cells).min?

/-- `Series.max()`. -/
def seriesMax (cells : List Cell) : Option ℚ :=
  (colNums cells).max?

/-- Whether a cell is missing. -/
def cellIsNa : Cell → Bool
  | .na => true
  | _ => false

/-- `Series.isna().all()`. -/
def seriesAllNa (cells : List Cell) : Bool :=
  cells.all cellIsNa

/-- `Series.value_counts()`: occurrence counts of the distinct
non-missing values (we keep first-appearance order; the claims under
verification do not depend on pandas' count-descending ordering). -/
def valueCounts (cells : List Cell) : List (Cell × ℕ) :=
  let vals := cells.filter (fun c => !cellIsNa c)
  vals.dedup.map (fun v => (v, vals.count v))

/-- The candidate category columns of app.py line 211, in source
order. -/
def categoryCandidates : List String :=
  ["カテゴリー", "カテゴリ", "Category", "状態"]

/-- The `for col in [...]: if col in seller_df.columns: break` loop
(app.py lines 210-214): the first candidate present among the
headers. -/
def categoryColumn (sdf : DataFrame) : Option String :=
  categoryCandidates.find? (fun c => sdf.cols.contains c)

/-- The category histogram (app.py lines 216-219): `value_counts` of
the chosen column, or the single その他 bucket sized by the seller's
row count when no candidate column exists or the chosen column is all
missing. -/
def categoryCounts (sdf : DataFrame) : List (Cell × ℕ) :=
  match categoryColumn sdf with
  | some c =>
    let cells := (sdf.col? c).getD []
    if seriesAllNa cells then [(.str "その他", sdf.rows.length)]
    else valueCounts cells
  | none => [(.str "その他", sdf.rows.length)]

/-- A bin edge of `pd.cut`: a rational, or `float('inf')`. -/
inductive Bound where
  | fin : ℚ → Bound
  | inf : Bound
deriving DecidableEq, Repr

/-- Strict lower-edge comparison of `pd.cut` (left edges are open). -/
def boundLt (b : Bound) (q : ℚ) : Bool :=
  match b with
  | .fin x => x < q
  | .inf => false

/-- Inclusive upper-edge comparison of `pd.cut` (right edges are
closed; everything is below `float('inf')`). -/
def valLeBound (q : ℚ) (b : Bound) : Bool :=
  match b with
  | .fin x => q ≤ x
  | .inf => true

/-- `pd.cut(x, bins)` on one value: index of the interval
`(bins[i], bins[i+1]]` containing it, or `none` (`NaN`) when the value
lies outside every interval. -/
def cutAssign : List Bound → ℚ → Option ℕ
  | [], _ => none
  | [_], _ => none
  | lo :: hi :: rest, q =>
    if boundLt lo q && valLeBound q hi then some 0
    else (cutAssign (hi :: rest) q).map (· + 1)

/-- The fixed bin edges of app.py line 222, with `float('inf')` as the
last edge. -/
def price_ranges : List Bound :=
  [.fin 0, .fin 10, .fin 20, .fin 30, .fin 40, .fin 50, .fin 75, .fin 100, .inf]

/-- The eight bucket labels of app.py line 223. -/
def price_labels : List String :=
  ["$0-10", "$10-20", "$20-30", "$30-40", "$40-50", "$50-75", "$75-100", "$100+"]

/-- `pd.cut` on one price cell: missing prices map to `NaN`. -/
def cellCut (c : Cell) : Option ℕ :=
  match c with
  | .num q => cutAssign price_ranges q
  | _ => none

/-- The `price_distribution` series (app.py lines 225-227): one bucket
index (or `NaN`) per seller row. -/
def priceDist (prices : List Cell) : List (Option ℕ) :=
  prices.map cellCut

/-- `price_dist.value_counts()` (app.py line 310): the count of each
of the eight bucket labels (a categorical `value_counts` reports every
category, including empty ones). -/
def bucketCounts (dist : List (Option ℕ)) : List ℕ :=
  [dist.count (some 0), dist.count (some 1), dist.count (some 2), dist.count (some 3),
   dist.count (some 4), dist.count (some 5), dist.count (some 6), dist.count (some 7)]

/-- Whether a price cell holds a value strictly inside `(0, ∞)` — the
prices `pd.cut` actually assigns to a bucket. -/
def posPrice (c : Cell) : Bool :=
  match c with
  | .num q => decide (0 < q)
  | _ => false

/-- The basic statistics dictionary of app.py lines 202-207. -/
structure SellerStats where
  total : ℕ
  avgPrice : Option ℚ
  minPrice : Option ℚ
  maxPrice : Option ℚ
deriving DecidableEq, Repr

/-- The quadruple returned by `analyze_seller` (app.py line 229). -/
structure AnalysisResult where
  sellerDf : DataFrame
  stats : SellerStats
  category_counts : List (Cell × ℕ)
  price_distribution : List (Option ℕ)
deriving DecidableEq, Repr

/-- Shallow embedding of `analyze_seller` (app.py lines 197-229).
`none` models the `KeyError` raised when the 出品者 column (line 199)
or the 価格 column (line 204) is absent; otherwise every step is
total. -/
def analyze_seller (df : DataFrame) (sellerName : String) : Option AnalysisResult :=
  match filterSeller df sellerName with
  | none => none
  | some sdf =>
    match sdf.col? "価格" with
    | none => none
    | some prices =>
      some { sellerDf := sdf,
             stats := ⟨sdf.rows.length, seriesMean prices, seriesMin prices, seriesMax prices⟩,
             category_counts := categoryCounts sdf,
             price_distribution := priceDist prices }

end EbayAnalyzer

namespace EbayAnalyzer

/-! ## Claim theorems: authentication and error handling -/

/-- C3: with the session not yet authenticated and the ログイン button
pressed, `check_password` returns `true` exactly when the submitted
username is one of the three hardcoded entries and the submitted
password equals that entry's stored plaintext password — the comparison
is plain string equality, with no hashing. -/
theorem check_password_iff_plaintext_match :
    users.length = 3 ∧
    ∀ u p : String,
      ((check_password ⟨false⟩ ⟨u, p, true⟩).1 = true ↔ users.lookup u = some p) := by
  refine ⟨rfl, fun u p => ?_⟩
  unfold check_password
  simp only [if_neg (by simp : ¬ (SessionState.mk false).authenticated = true)]
  cases h : users.lookup u with
  | none => simp [h]
  | some pw =>
    by_cases hp : pw = p <;> simp [h, hp]

/-- C6: the authenticated flag is monotone.  From an authenticated
session every call to `check_password` returns `true` and leaves the
flag set, whatever the form contents (the credentials are not
re-checked), and in general the flag after a call is the old flag
`or`-ed with a successful fresh login — so no call ever resets it to
`false`. -/
theorem check_password_flag_monotone :
    (∀ f : LoginForm, check_password ⟨true⟩ f = (true, ⟨true⟩)) ∧
    (∀ (s : SessionState) (f : LoginForm),
      ((check_password s f).2).authenticated
        = (s.authenticated || (f.pressed && (users.lookup f.username == some f.password)))) := by
  constructor
  · intro f
    rfl
  · intro s f
    unfold check_password
    rcases s with ⟨b⟩
    cases b with
    | true => simp
    | false =>
      cases hp : f.pressed with
      | false => simp [hp]
      | true =>
        cases h : users.lookup f.username with
        | none => simp [h]
        | some pw => by_cases hpw : pw = f.password <;> simp [h, hpw]

/-- C2 (code bug): a failure raised by `uploaded_file.read()` — before
the local `file_content` is bound — is caught by the `except` clause,
but the handler's debug output then evaluates `len(file_content)` and
raises `UnboundLocalError`, which propagates out of
`load_and_analyze_data` instead of the routine returning `(None, None)`.
The same happens for a failure inside `detect_encoding`.  Only failures
raised after both locals are bound produce the claimed `(None, None)`
return. -/
theorem load_top_level_handler_can_raise :
    load_and_analyze_data ⟨true, false, false⟩ = .raised "UnboundLocalError" ∧
    load_and_analyze_data ⟨false, true, false⟩ = .raised "UnboundLocalError" ∧
    load_and_analyze_data ⟨false, false, true⟩ = .returned false false := by
  refine ⟨rfl, rfl, rfl⟩

/-! ## Claim theorems: encoding fallback -/

/-- Helper: if the first attempted encoding whose parse succeeds is
`enc`, the read loop returns that parse's dataframe, whatever errors
were already accumulated. -/
theorem readCsvLoop_find_ok {α : Type} (parse : String → Except String α) :
    ∀ (l : List (Option String)) (errs : List String) (enc : String),
      (l.filterMap id).find? (fun e => exceptOk (parse e)) = some enc →
      ∃ df, parse enc = .ok df ∧ readCsvLoop parse l errs = .ok df := by
  intro l
  induction l with
  | nil =>
    intro errs enc h
    simp at h
  | cons hd tl ih =>
    intro errs enc h
    cases hd with
    | none =>
      rw [show ((none : Option String) :: tl).filterMap id = tl.filterMap id from rfl] at h
      exact ih errs enc h
    | some e =>
      rw [show ((some e : Option String) :: tl).filterMap id = e :: tl.filterMap id from rfl] at h
      cases hpe : exceptOk (parse e) with
      | true =>
        rw [@List.find?_cons_of_pos String (fun x => exceptOk (parse x)) e (tl.filterMap id) hpe] at h
        have he : e = enc := by
          injection h
        subst he
        cases hp : parse e with
        | ok df =>
          refine ⟨df, rfl, ?_⟩
          simp [readCsvLoop, hp]
        | error m =>
          rw [hp] at hpe
          simp [exceptOk] at hpe
      | false =>
        rw [@List.find?_cons_of_neg String (fun x => exceptOk (parse x)) e (tl.filterMap id) (by simp [hpe])] at h
        cases hp : parse e with
        | ok df =>
          rw [hp] at hpe
          simp [exceptOk] at hpe
        | error m =>
          have hstep : readCsvLoop parse (some e :: tl) errs
              = readCsvLoop parse tl (errs ++ [encFailMsg e m]) := by
            simp [readCsvLoop, hp]
          rw [hstep]
          exact ih _ enc h

/-- Helper: when every attempted encoding fails, the loop raises the
accumulated messages, in attempt order, appended to the ones already
collected. -/
theorem readCsvLoop_all_fail {α : Type} (parse : String → Except String α) :
    ∀ (l : List (Option String)) (errs : List String),
      (∀ e ∈ l.filterMap id, exceptOk (parse e) = false) →
      readCsvLoop parse l errs
        = .error (errs ++ (l.filterMap id).map (fun e => encFailMsg e (exceptErr (parse e)))) := by
  intro l
  induction l with
  | nil =>
    intro errs _
    simp [readCsvLoop]
  | cons hd tl ih =>
    intro errs h
    cases hd with
    | none =>
      rw [show ((none : Option String) :: tl).filterMap id = tl.filterMap id from rfl] at h ⊢
      exact ih errs h
    | some e =>
      rw [show ((some e : Option String) :: tl).filterMap id = e :: tl.filterMap id from rfl] at h ⊢
      have he : exceptOk (parse e) = false := h e (List.mem_cons_self e _)
      cases hp : parse e with
      | ok df =>
        rw [hp] at he
        simp [exceptOk] at he
      | error m =>
        have hstep : readCsvLoop parse (some e :: tl) errs
            = readCsvLoop parse tl (errs ++ [encFailMsg e m]) := by
          simp [readCsvLoop, hp]
        rw [hstep, ih _ (fun x hx => h x (List.mem_cons_of_mem _ hx))]
        simp [hp, exceptErr]

/-- C7: CSV decoding tries `utf-8-sig`, `cp932`, `shift-jis`, `utf-8`,
then the detected encoding, in that order, skipping `None`; the first
candidate that parses wins, and when every candidate fails the loop
raises the accumulated per-encoding error messages in attempt order. -/
theorem csv_encoding_fallback_order {α : Type} (parse : String → Except String α)
    (detected : Option String) :
    ((encodings_to_try detected).filterMap id
        = ["utf-8-sig", "cp932", "shift-jis", "utf-8"] ++ detected.toList) ∧
    (∀ enc : String,
      ((encodings_to_try detected).filterMap id).find? (fun e => exceptOk (parse e)) = some enc →
      ∃ df, parse enc = .ok df ∧ readCsvLoop parse (encodings_to_try detected) [] = .ok df) ∧
    ((∀ e ∈ (encodings_to_try detected).filterMap id, exceptOk (parse e) = false) →
      readCsvLoop parse (encodings_to_try detected) []
        = .error (((encodings_to_try detected).filterMap id).map
            (fun e => encFailMsg e (exceptErr (parse e))))) := by
  refine ⟨?_, ?_, ?_⟩
  · cases detected <;> rfl
  · intro enc h
    exact readCsvLoop_find_ok parse _ [] enc h
  · intro h
    simpa using readCsvLoop_all_fail parse _ [] h

/-- Demo parser succeeding only on `cp932`, used to witness C7. -/
def demoParseOk : String → Except String Nat :=
  fun e => if e = "cp932" then .ok 7 else .error "bad"

/-- Demo parser failing on every encoding, used to witness C7. -/
def demoParseFail : String → Except String Nat :=
  fun _ => .error "boom"

/-- Witness for C7 at concrete parsers: the loop returns the `cp932`
result for `demoParseOk`, and the five accumulated messages for
`demoParseFail` with detected encoding `latin-1`. -/
theorem csv_encoding_fallback_order_witness :
    readCsvLoop demoParseOk (encodings_to_try (some "latin-1")) [] = .ok 7 ∧
    readCsvLoop demoParseFail (encodings_to_try (some "latin-1")) []
      = .error [encFailMsg "utf-8-sig" "boom", encFailMsg "cp932" "boom",
          encFailMsg "shift-jis" "boom", encFailMsg "utf-8" "boom",
          encFailMsg "latin-1" "boom"] := by
  constructor
  · obtain ⟨df, hdf, hres⟩ :=
      (csv_encoding_fallback_order demoParseOk (some "latin-1")).2.1 "cp932" (by decide)
    have h7 : demoParseOk "cp932" = .ok 7 := rfl
    rw [h7] at hdf
    injection hdf with hdf7
    rw [← hdf7] at hres
    exact hres
  · have h := (csv_encoding_fallback_order demoParseFail (some "latin-1")).2.2 (by
      intro e _
      rfl)
    exact h.trans (by rfl)

end EbayAnalyzer

namespace EbayAnalyzer

/-! ## Claim theorems: column normalization -/

/-- C5 counterexample: the header `Item Condition` matches a keyword of
the 状態 group (`condition`), yet the chain renames the column to
商品名 because the 商品名 group (`item`) is tested first — so the
claim's order-free reading of the table fails at this header. -/
theorem keyword_table_claim_fails : ¬ keywordTableClaimAt "Item Condition" := by
  unfold keywordTableClaimAt
  decide

/-- C5 as amended: the normalization chain renames every header to the
canonical name of the first group, in table order, one of whose
keywords occurs in the lowercased header (and leaves headers matching
no group unrenamed). -/
theorem normalize_column_first_match (col : String) :
    normalizeColumn col = firstMatchNormalize col := by
  unfold normalizeColumn firstMatchNormalize
  dsimp only
  split_ifs with h1 h2 h3 h4 h5 h6 h7 <;>
    simp_all [normalizationGroups, List.find?]

end EbayAnalyzer

namespace EbayAnalyzer

/-! ## Claim theorems: analyze_seller and price buckets -/

/-- Helper: a column index is found exactly when the name occurs among
the headers. -/
theorem findColIdx_isSome (name : String) :
    ∀ l : List String, (findColIdx name l).isSome = true ↔ name ∈ l := by
  intro l
  induction l with
  | nil => simp [findColIdx]
  | cons c rest ih =>
    by_cases h : c = name
    · simp [findColIdx, h]
    · simp [findColIdx, h, ih, Ne.symm h]

/-- C9: `analyze_seller` succeeds exactly when the dataframe has both a
出品者 column and a 価格 column; missing either one makes the very
first access to it raise a `KeyError` (modelled as `none`), and with
both present the analysis is total. -/
theorem analyze_seller_requires_columns (df : DataFrame) (s : String) :
    (analyze_seller df s).isSome = true ↔ ("出品者" ∈ df.cols ∧ "価格" ∈ df.cols) := by
  unfold analyze_seller filterSeller DataFrame.col?
  cases h1 : findColIdx "出品者" df.cols with
  | none =>
    have hc : ¬ "出品者" ∈ df.cols := by
      rw [← findColIdx_isSome "出品者" df.cols]
      simp [h1]
    simp [h1, hc]
  | some i =>
    have hc : "出品者" ∈ df.cols := by
      rw [← findColIdx_isSome "出品者" df.cols]
      simp [h1]
    cases h2 : findColIdx "価格" df.cols with
    | none =>
      have hp : ¬ "価格" ∈ df.cols := by
        rw [← findColIdx_isSome "価格" df.cols]
        simp [h2]
      simp [h1, h2, hc, hp]
    | some j =>
      have hp : "価格" ∈ df.cols := by
        rw [← findColIdx_isSome "価格" df.cols]
        simp [h2]
      simp [h1, h2, hc, hp]

end EbayAnalyzer

namespace EbayAnalyzer

/-- C10: the category histogram falls back deterministically.  For any
successful analysis, when no candidate category column (カテゴリー,
カテゴリ, Category, 状態, in that order) is present, or the chosen one
is entirely missing values, the returned histogram is the single
bucket その他 counting all of the seller's rows. -/
theorem category_counts_fallback (df : DataFrame) (seller : String) (res : AnalysisResult)
    (h : analyze_seller df seller = some res)
    (hfb : categoryColumn res.sellerDf = none ∨
      ∃ c, categoryColumn res.sellerDf = some c ∧
        seriesAllNa ((res.sellerDf.col? c).getD []) = true) :
    res.category_counts = [(Cell.str "その他", res.sellerDf.rows.length)] := by
  unfold analyze_seller at h
  split at h
  · exact absurd h (by simp)
  · split at h
    · exact absurd h (by simp)
    · injection h with h'
      subst h'
      dsimp only at hfb ⊢
      unfold categoryCounts
      rcases hfb with hnone | ⟨c, hc, hna⟩
      · rw [hnone]
      · rw [hc]
        simp [hna]

/-- Demo dataframe witnessing C10: one seller row, no category
candidate column. -/
def demoCatDf : DataFrame :=
  ⟨["出品者", "価格"], [[.str "a", .num 5]]⟩

/-- Demo analysis result: what `analyze_seller demoCatDf "a"`
returns. -/
def demoCatRes : AnalysisResult :=
  { sellerDf := ⟨["出品者", "価格"], [[.str "a", .num 5]]⟩,
    stats := ⟨1, seriesMean [.num 5], seriesMin [.num 5], seriesMax [.num 5]⟩,
    category_counts := [(.str "その他", 1)],
    price_distribution := [some 0] }

/-- Witness for C10 at a concrete table with no category column: the
histogram is the single その他 bucket of size one. -/
theorem category_counts_fallback_witness :
    demoCatRes.category_counts = [(Cell.str "その他", demoCatRes.sellerDf.rows.length)] :=
  category_counts_fallback demoCatDf "a" demoCatRes rfl (Or.inl rfl)

end EbayAnalyzer

namespace EbayAnalyzer

/-- Helper: any interval index assigned by `cutAssign` points at a
consecutive pair of edges bracketing the value: open on the left edge,
closed on the right one. -/
theorem cutAssign_bounds :
    ∀ (edges : List Bound) (q : ℚ) (i : ℕ), cutAssign edges q = some i →
      i + 1 < edges.length ∧ boundLt (edges.getD i Bound.inf) q = true ∧
        valLeBound q (edges.getD (i + 1) Bound.inf) = true := by
  intro edges
  induction edges with
  | nil =>
    intro q i h
    simp [cutAssign] at h
  | cons lo rest ih =>
    intro q i h
    cases rest with
    | nil => simp [cutAssign] at h
    | cons hi rest2 =>
      rw [cutAssign] at h
      by_cases hcond : (boundLt lo q && valLeBound q hi) = true
      · rw [if_pos hcond] at h
        injection h with h0
        subst h0
        rw [Bool.and_eq_true] at hcond
        obtain ⟨hb1, hb2⟩ := hcond
        refine ⟨by simp, hb1, hb2⟩
      · rw [if_neg hcond] at h
        rcases Option.map_eq_some'.mp h with ⟨j, hj, hij⟩
        subst hij
        obtain ⟨hlen, hb1, hb2⟩ := ih q j hj
        refine ⟨?_, hb1, hb2⟩
        simp at hlen ⊢
        omega

/-- C4: price binning uses the eight fixed buckets over the nine edges
`0, 10, 20, 30, 40, 50, 75, 100, ∞`, and every price assigned bucket
`i` lies inside that bucket's range: strictly above its lower edge and
at most its upper edge. -/
theorem price_bucket_bounds :
    price_ranges.length = 9 ∧ price_labels.length = 8 ∧
    ∀ (q : ℚ) (i : ℕ), cutAssign price_ranges q = some i →
      i < 8 ∧ boundLt (price_ranges.getD i Bound.inf) q = true ∧
        valLeBound q (price_ranges.getD (i + 1) Bound.inf) = true := by
  refine ⟨rfl, rfl, ?_⟩
  intro q i h
  obtain ⟨hlen, hb1, hb2⟩ := cutAssign_bounds price_ranges q i h
  have h9 : price_ranges.length = 9 := rfl
  rw [h9] at hlen
  exact ⟨by omega, hb1, hb2⟩

/-- Witness for C4: the price `5` lands in bucket `0`, whose range is
`(0, 10]`. -/
theorem price_bucket_bounds_witness :
    cutAssign price_ranges 5 = some 0 ∧
    (0 < 8 ∧ boundLt (price_ranges.getD 0 Bound.inf) 5 = true ∧
      valLeBound 5 (price_ranges.getD (0 + 1) Bound.inf) = true) :=
  ⟨by decide, price_bucket_bounds.2.2 5 0 (by decide)⟩

end EbayAnalyzer

namespace EbayAnalyzer

/-- Helper: the eight per-bucket counts add up to the number of
assigned (non-`NaN`) entries of the distribution, provided every
assigned index is below 8. -/
theorem bucketCounts_sum_eq_countP :
    ∀ dist : List (Option ℕ), (∀ x ∈ dist, ∀ i : ℕ, x = some i → i < 8) →
      (bucketCounts dist).sum = dist.countP (fun x => x.isSome) := by
  intro dist
  induction dist with
  | nil => intro _; rfl
  | cons x d ih =>
    intro hmem
    have ih' := ih (fun y hy i hyi => hmem y (List.mem_cons_of_mem _ hy) i hyi)
    simp only [bucketCounts, List.count_cons, List.countP_cons, List.sum_cons,
      List.sum_nil] at ih' ⊢
    rcases x with _ | i
    · simpa using ih'
    · have hi : i < 8 := hmem (some i) (List.mem_cons_self _ _) i rfl
      simp only [Option.some.injEq, Option.isSome_some, if_true]
      interval_cases i <;> simp_all <;> omega

/-- Helper: on the fixed price edges, a value is assigned a bucket
exactly when it is strictly positive (`0` sits on the open left edge
of the first interval, and the last interval is unbounded). -/
theorem cutAssign_price_isSome (q : ℚ) :
    (cutAssign price_ranges q).isSome = decide (0 < q) := by
  simp only [price_ranges, cutAssign, boundLt, valLeBound]
  split_ifs with h1 h2 h3 h4 h5 h6 h7 h8 <;>
    simp_all only [Bool.and_eq_true, decide_eq_true_eq, Option.map_some', Option.map_none',
      Option.isSome_some, Option.isSome_none, true_eq_decide_iff, false_eq_decide_iff]
  · linarith [h2.1]
  · linarith [h3.1]
  · linarith [h4.1]
  · linarith [h5.1]
  · linarith [h6.1]
  · linarith [h7.1]
  · linarith [h8.1]
  · intro h0
    have t10 : ¬ q ≤ 10 := fun hle => h1 ⟨h0, hle⟩
    have t20 : ¬ q ≤ 20 := fun hle => h2 ⟨by linarith, hle⟩
    have t30 : ¬ q ≤ 30 := fun hle => h3 ⟨by linarith, hle⟩
    have t40 : ¬ q ≤ 40 := fun hle => h4 ⟨by linarith, hle⟩
    have t50 : ¬ q ≤ 50 := fun hle => h5 ⟨by linarith, hle⟩
    have t75 : ¬ q ≤ 75 := fun hle => h6 ⟨by linarith, hle⟩
    have t100 : ¬ q ≤ 100 := fun hle => h7 ⟨by linarith, hle⟩
    exact h8 ⟨by linarith [not_le.mp t100], trivial⟩

/-- Helper: the assigned entries of the price distribution are exactly
the rows whose price is present and strictly positive. -/
theorem countP_isSome_priceDist (prices : List Cell) :
    (priceDist prices).countP (fun x => x.isSome) = prices.countP posPrice := by
  induction prices with
  | nil => rfl
  | cons c cs ih =>
    have hc : (cellCut c).isSome = posPrice c := by
      cases c with
      | na => rfl
      | str s => rfl
      | num q => simpa [cellCut, posPrice] using cutAssign_price_isSome q
    simp only [priceDist, List.map_cons, List.countP_cons] at ih ⊢
    rw [hc]
    omega

/-- C1 as amended: for every successful analysis, the eight
price-bucket counts sum to the number of seller rows whose price is
present and strictly positive (rows with a missing price, or a price
outside `(0, ∞)`, fall in no bucket), not to the seller's total row
count. -/
theorem price_bucket_counts_sum_pos (df : DataFrame) (seller : String) (res : AnalysisResult)
    (h : analyze_seller df seller = some res) :
    (bucketCounts res.price_distribution).sum
      = ((res.sellerDf.col? "価格").getD []).countP posPrice := by
  unfold analyze_seller at h
  split at h
  · exact absurd h (by simp)
  · split at h
    · exact absurd h (by simp)
    · rename_i sdf hf prices hp
      injection h with h'
      subst h'
      dsimp only
      rw [hp]
      have hmem : ∀ x ∈ priceDist prices, ∀ i : ℕ, x = some i → i < 8 := by
        intro x hx i hxi
        rcases List.mem_map.mp hx with ⟨c, _, hcx⟩
        rw [← hcx] at hxi
        cases c with
        | na => simp [cellCut] at hxi
        | str s => simp [cellCut] at hxi
        | num qq =>
          have hb := (cutAssign_bounds price_ranges qq i (by simpa [cellCut] using hxi)).1
          have h9 : price_ranges.length = 9 := rfl
          omega
      rw [bucketCounts_sum_eq_countP (priceDist prices) hmem, countP_isSome_priceDist]
      rfl

end EbayAnalyzer

namespace EbayAnalyzer

/-- Demo price column for the C1 witness: a positive price, a missing
one, a zero price, and a price above the last finite edge. -/
def demoPrices : List Cell :=
  [.num 5, .na, .num 0, .num 200]

/-- Demo dataframe for the C1 witness. -/
def demoPriceDf : DataFrame :=
  ⟨["出品者", "価格"],
    [[.str "b", .num 5], [.str "b", .na], [.str "b", .num 0], [.str "b", .num 200]]⟩

/-- What `analyze_seller demoPriceDf "b"` returns. -/
def demoPriceRes : AnalysisResult :=
  { sellerDf :=
      ⟨["出品者", "価格"],
        [[.str "b", .num 5], [.str "b", .na], [.str "b", .num 0], [.str "b", .num 200]]⟩,
    stats := ⟨4, seriesMean demoPrices, seriesMin demoPrices, seriesMax demoPrices⟩,
    category_counts := [(.str "その他", 4)],
    price_distribution := priceDist demoPrices }

/-- Witness for C1 (amended): on the demo table the bucket counts sum
to the two assigned rows (prices `5` and `200`), not to the seller's
four rows. -/
theorem price_bucket_counts_sum_pos_witness :
    (bucketCounts demoPriceRes.price_distribution).sum
      = ((demoPriceRes.sellerDf.col? "価格").getD []).countP posPrice :=
  price_bucket_counts_sum_pos demoPriceDf "b" demoPriceRes rfl

/-- C1 counterexample: for a seller whose single row has a missing
price, the bucket counts sum to `0` while the seller has `1` row — the
claim's equality with the total row count fails. -/
theorem price_bucket_counts_sum_counterexample :
    (analyze_seller ⟨["出品者", "価格"], [[.str "alice", .na]]⟩ "alice").map
        (fun res => decide ((bucketCounts res.price_distribution).sum = res.sellerDf.rows.length))
      = some false := by
  decide

end EbayAnalyzer

namespace EbayAnalyzer

/-- Helper: a dot-free split returns the whole input. -/
theorem splitAtDot_none (l : List Char) :
    ∀ ip, splitAtDot l = (ip, none) → l = ip ∧ '.' ∉ ip := by
  induction l with
  | nil =>
    intro ip h
    simp only [splitAtDot, Prod.mk.injEq] at h
    exact ⟨h.1, by rw [← h.1]; simp⟩
  | cons c rest ih =>
    intro ip h
    by_cases hc : c = '.'
    · rw [splitAtDot, if_pos hc] at h
      simp at h
    · rw [splitAtDot, if_neg hc] at h
      simp only [Prod.mk.injEq] at h
      obtain ⟨h1, h2⟩ := h
      obtain ⟨hr1, hr2⟩ := ih (splitAtDot rest).1 (by rw [← h2])
      subst h1
      refine ⟨by rw [← hr1], ?_⟩
      intro hmem
      rcases List.mem_cons.mp hmem with hd | hd
      · exact hc hd.symm
      · exact hr2 hd

/-- Helper: a successful split cuts the input at its first dot. -/
theorem splitAtDot_some (l : List Char) :
    ∀ ip fp, splitAtDot l = (ip, some fp) → l = ip ++ '.' :: fp ∧ '.' ∉ ip := by
  induction l with
  | nil =>
    intro ip fp h
    simp [splitAtDot] at h
  | cons c rest ih =>
    intro ip fp h
    by_cases hc : c = '.'
    · rw [splitAtDot, if_pos hc] at h
      simp only [Prod.mk.injEq, Option.some.injEq] at h
      obtain ⟨h1, h2⟩ := h
      subst hc
      rw [← h1, ← h2]
      exact ⟨rfl, by simp⟩
    · rw [splitAtDot, if_neg hc] at h
      simp only [Prod.mk.injEq] at h
      obtain ⟨h1, h2⟩ := h
      obtain ⟨hr1, hr2⟩ := ih (splitAtDot rest).1 fp (by rw [← h2])
      subst h1
      refine ⟨by rw [List.cons_append, ← hr1], ?_⟩
      intro hmem
      rcases List.mem_cons.mp hmem with hd | hd
      · exact hc hd.symm
      · exact hr2 hd

/-- Helper: a digits-or-dots list without a dot is all digits. -/
theorem all_digit_of_nodot {l : List Char}
    (hmem : ∀ c ∈ l, c.isDigit = true ∨ c = '.') (hnd : '.' ∉ l) :
    l.all Char.isDigit = true := by
  rw [List.all_eq_true]
  intro c hc
  rcases hmem c hc with h | h
  · exact h
  · exact absurd (h ▸ hc) hnd

/-- Helper: an all-digit list has a digit exactly when it is
nonempty. -/
theorem any_digit_of_all {l : List Char} (h : l.all Char.isDigit = true) :
    l.any Char.isDigit = !l.isEmpty := by
  cases l with
  | nil => rfl
  | cons c rest =>
    rw [List.all_cons, Bool.and_eq_true] at h
    simp [List.any_cons, h.1]

/-- Helper: an all-digit list contains no dot. -/
theorem nodot_of_all_digit {l : List Char} (h : l.all Char.isDigit = true) :
    '.' ∉ l := by
  intro hmem
  rw [List.all_eq_true] at h
  exact absurd (h '.' hmem) (by decide)

end EbayAnalyzer

namespace EbayAnalyzer

/-- C8: price parsing never raises.  The cleaning step keeps only
digits and dots, and the (total) coercion step yields a value exactly
on cleaned strings that are nonempty decimal numerals with at most one
dot and at least one digit — every other input, the empty result
included, becomes a missing value (`none`, pandas `NaN`) instead of an
error. -/
theorem price_parse_strips_and_coerces (s : String) :
    (cleanPrice s).all (fun c => c.isDigit || c == '.') = true ∧
    (parse_price s).isSome = validNumeral (cleanPrice s) := by
  constructor
  · rw [List.all_eq_true]
    intro c hc
    exact (List.mem_filter.mp hc).2
  · unfold parse_price
    by_cases h0 : cleanPrice s = []
    · rw [if_pos h0, h0]
      rfl
    · rw [if_neg h0]
      have hmem : ∀ c ∈ cleanPrice s, c.isDigit = true ∨ c = '.' := by
        intro c hc
        have h2 := (List.mem_filter.mp hc).2
        simp at h2
        exact h2
      generalize hgen : cleanPrice s = l at h0 hmem ⊢
      unfold parseCleaned validNumeral
      rcases hsp : splitAtDot l with ⟨ip, _ | fp⟩
      · dsimp only
        obtain ⟨hip, hnd⟩ := splitAtDot_none l ip hsp
        cases hip
        have hall : l.all Char.isDigit = true := all_digit_of_nodot hmem hnd
        have hcnt : l.count '.' = 0 := List.count_eq_zero.mpr hnd
        have hany : l.any Char.isDigit = !l.isEmpty := any_digit_of_all hall
        have hne : l.isEmpty = false := by
          cases l with
          | nil => exact absurd rfl h0
          | cons c rest => rfl
        rw [if_pos ⟨h0, hall⟩]
        simp [hcnt, hany, hne]
      · dsimp only
        obtain ⟨hip, hnd⟩ := splitAtDot_some l ip fp hsp
        have hipall : ip.all Char.isDigit = true :=
          all_digit_of_nodot (fun c hc => hmem c (by rw [hip]; exact List.mem_append_left _ hc)) hnd
        have hcip : ip.count '.' = 0 := List.count_eq_zero.mpr hnd
        by_cases hfd : '.' ∈ fp
        · have hfall : fp.all Char.isDigit = false := by
            cases hfa : fp.all Char.isDigit
            · rfl
            · exact absurd hfd (nodot_of_all_digit hfa)
          rw [if_neg (by rintro ⟨-, -, hC⟩; rw [hfall] at hC; exact Bool.false_ne_true hC)]
          have hnz : fp.count '.' ≠ 0 := fun hz => (List.count_eq_zero.mp hz) hfd
          have hcl : l.count '.' = ip.count '.' + (fp.count '.' + 1) := by
            rw [hip, List.count_append, List.count_cons]
            simp
          have hdec : decide (l.count '.' ≤ 1) = false := by
            rw [decide_eq_false_iff_not]
            rw [hcl, hcip]
            omega
          simp [hdec]
        · have hfall : fp.all Char.isDigit = true :=
            all_digit_of_nodot
              (fun c hc => hmem c (by rw [hip]; exact List.mem_append_right _ (List.mem_cons_of_mem _ hc)))
              hfd
          have hcfp : fp.count '.' = 0 := List.count_eq_zero.mpr hfd
          have hcl : l.count '.' = 1 := by
            rw [hip, List.count_append, List.count_cons]
            simp [hcip, hcfp]
          have hne : l.isEmpty = false := by
            rw [hip]
            cases ip <;> rfl
          have hdot : Char.isDigit '.' = false := by decide
          have hany : l.any Char.isDigit = (!ip.isEmpty || !fp.isEmpty) := by
            rw [hip, List.any_append, List.any_cons]
            simp [hdot, any_digit_of_all hipall, any_digit_of_all hfall]
          by_cases hcase : ip = [] ∧ fp = []
          · rw [if_neg (by rintro ⟨hor, -, -⟩; rcases hor with h | h; exacts [h hcase.1, h hcase.2])]
            rcases hcase with ⟨he1, he2⟩
            subst he1
            subst he2
            simp [hne, hcl, hany]
          · have hor : ip ≠ [] ∨ fp ≠ [] := not_and_or.mp hcase
            rw [if_pos ⟨hor, hipall, hfall⟩]
            have hanytrue : (!ip.isEmpty || !fp.isEmpty) = true := by
              rcases hor with h | h
              · cases ip with
                | nil => exact absurd rfl h
                | cons c rest => simp
              · cases fp with
                | nil => exact absurd rfl h
                | cons c rest => simp
            simp [hne, hcl, hany, hanytrue]

end EbayAnalyzer
